import Mathlib

/-!
Verification development for the SmartCoder repository.

Part 1 embeds the span locator of `src/extension.ts`
(`_findClassRange`, `_findMethodRange`): a regex signature match followed
by a character scan that counts brace depth while tracking string literals.
Text is modelled as `List Char` (the inputs of interest are ASCII, so
JS UTF-16 code-unit indexing coincides with list indexing); spans are
pairs of offsets, as `vscode.Range` endpoints are produced by
`document.positionAt` on those offsets.

Part 2 embeds the Express server of `server/server.js`:
`calculateBeatPercentage` and the route handlers that touch the in-memory
`submissions` and `problemsDatabase` arrays.  JS numbers are modelled as
exact integers/rationals (all code paths of interest are integer-valued).
-/

/-- JS `\w` character class (ASCII word character). -/
def wordChar (c : Char) : Bool := c.isAlphanum || c == '_'

/-- JS `\s` character class, restricted to the ASCII whitespace characters. -/
def spaceJS (c : Char) : Bool :=
  c == ' ' || c == '\t' || c == '\n' || c == '\r' || c == Char.ofNat 11 || c == Char.ofNat 12

/-- Number of leading characters of the list satisfying `p` (greedy `p*`). -/
def countWhile (p : Char → Bool) : List Char → Nat
  | [] => 0
  | c :: rest => if p c then countWhile p rest + 1 else 0

/-- Does the word `w` occur literally at the head of `l`? -/
def matchLit : List Char → List Char → Bool
  | [], _ => true
  | _ :: _, [] => false
  | a :: w, b :: l => a == b && matchLit w l

/-- The character of `t` at offset `i` (JS `text[i]`, `none` = `undefined`). -/
def getC (t : List Char) (i : Nat) : Option Char := t.get? i

/-- Does the word `w` occur literally at offset `i` of `t`? -/
def litFrom (t : List Char) (i : Nat) (w : List Char) : Bool := matchLit w (t.drop i)

/-- Length of the maximal run of characters satisfying `p` starting at offset `i`. -/
def countFrom (t : List Char) (i : Nat) (p : Char → Bool) : Nat := countWhile p (t.drop i)

/-- State of the brace-depth scan of `_findClassRange`/`_findMethodRange`
(`braceCount`, `foundStartBrace`, `endIndex`, `inString`, `stringChar`);
`done` records that the JS `break` was reached. -/
structure BraceScanState where
  braceCount : Int
  foundStartBrace : Bool
  endIndex : Nat
  inString : Bool
  stringChar : Option Char
  done : Bool
deriving Repr, DecidableEq

/-- One iteration of the brace-depth loop at offset `i` on character `c`,
with `prev` = `text[i-1]` (`none` when `i = 0`, modelling the JS `''`). -/
def braceStep (c : Char) (prev : Option Char) (i : Nat) (st : BraceScanState) : BraceScanState :=
  let st :=
    if !st.inString && (c == '"' || c == Char.ofNat 39) then
      { st with inString := true, stringChar := some c }
    else if st.inString && some c == st.stringChar && prev != some '\\' then
      { st with inString := false }
    else st
  if !st.inString then
    if c == '{' then
      let st := if !st.foundStartBrace then { st with foundStartBrace := true, endIndex := i + 1 } else st
      { st with braceCount := st.braceCount + 1 }
    else if c == '}' then
      let st := { st with braceCount := st.braceCount - 1 }
      if st.foundStartBrace && st.braceCount == 0 then { st with endIndex := i + 1, done := true }
      else st
    else st
  else st

/-- Runs the brace-depth loop over the remaining characters, threading the
previous character and the absolute offset.  After the JS `break` (`done`)
the state is left untouched. -/
def braceScanAux : List Char → Option Char → Nat → BraceScanState → BraceScanState
  | [], _, _, st => st
  | c :: rest, prev, i, st =>
    if st.done then st else braceScanAux rest (some c) (i + 1) (braceStep c prev i st)

/-- The brace-depth scan of the locators, started at offset `start` with
`endIndex` initialised to `start` (both locators initialise it to the scan
start offset). -/
def braceScan (t : List Char) (start : Nat) : BraceScanState :=
  braceScanAux (t.drop start) (if start = 0 then none else getC t (start - 1)) start
    ⟨0, false, start, false, none, false⟩

/-- Matcher for the method regex of `_findMethodRange` at start offset `i`:
`\b(public|private|protected|internal)\s+(static\s+)?(async\s+)?(\w+\s+)?NAME\s*\([^)]*\)\s*\x7b?`.
Returns the end offset of the match (JS leftmost-greedy semantics; the
optional groups backtrack to empty when the continuation fails). -/
def matchSigAt (t name : List Char) (i : Nat) : Option Nat :=
  let afterName : Nat → Option Nat := fun p =>
    if litFrom t p name then
      let q := p + name.length + countFrom t (p + name.length) spaceJS
      if getC t q = some '(' then
        let r := q + 1 + countFrom t (q + 1) (fun c => !(c == ')'))
        if getC t r = some ')' then
          let e := r + 1 + countFrom t (r + 1) spaceJS
          if getC t e = some '{' then some (e + 1) else some e
        else none
      else none
    else none
  let grpWord : Nat → Option Nat := fun p =>
    let w := countFrom t p wordChar
    let s := countFrom t (p + w) spaceJS
    ((if 0 < w ∧ 0 < s then afterName (p + w + s) else none) : Option Nat) <|> afterName p
  let grpAsync : Nat → Option Nat := fun p =>
    ((if litFrom t p (String.toList "async") then
       let s := countFrom t (p + 5) spaceJS
       if 0 < s then grpWord (p + 5 + s) else none
     else none) : Option Nat) <|> grpWord p
  let grpStatic : Nat → Option Nat := fun p =>
    ((if litFrom t p (String.toList "static") then
       let s := countFrom t (p + 6) spaceJS
       if 0 < s then grpAsync (p + 6 + s) else none
     else none) : Option Nat) <|> grpAsync p
  let tryMod : List Char → Option Nat := fun w =>
    if litFrom t i w then
      let s := countFrom t (i + w.length) spaceJS
      if 0 < s then grpStatic (i + w.length + s) else none
    else none
  let boundary : Bool :=
    match i, getC t (i - 1) with
    | 0, _ => true
    | _ + 1, some c => !wordChar c
    | _ + 1, none => true
  cond boundary
    ((tryMod (String.toList "public") <|> tryMod (String.toList "private") <|>
      tryMod (String.toList "protected") <|> tryMod (String.toList "internal")) : Option Nat)
    none

/-- `regex.exec` with the `g` flag: the leftmost match whose start offset is
`≥ i`, as (start, end).  Fuelled recursion (the scan advances one offset per
step and stops past the end of the text). -/
def findMatchFrom (t name : List Char) : Nat → Nat → Option (Nat × Nat)
  | 0, _ => none
  | fuel + 1, i =>
    match matchSigAt t name i with
    | some e => some (i, e)
    | none => if t.length ≤ i then none else findMatchFrom t name fuel (i + 1)

/-- The `methodSignatureEnd` scan of `_findMethodRange`: from the match end
`me`, advance while the character is neither `\x7b` nor `;`. -/
def sigEndOf (t : List Char) (me : Nat) : Nat :=
  me + countFrom t me (fun c => !(c == '{') && !(c == ';'))

/-- The `while ((match = methodRegex.exec(text)) !== null)` loop of
`_findMethodRange`.  On a `;` delimiter or a failed brace scan the loop
`continue`s with `lastIndex` = the previous match end. -/
def findMethodRangeAux (t name : List Char) : Nat → Nat → Option (Nat × Nat)
  | 0, _ => none
  | fuel + 1, s =>
    match findMatchFrom t name (t.length + 2) s with
    | none => none
    | some (mi, me) =>
      if getC t (sigEndOf t me) = some ';' then
        findMethodRangeAux t name fuel me
      else if (braceScan t (sigEndOf t me)).foundStartBrace then
        some (mi, (braceScan t (sigEndOf t me)).endIndex)
      else
        findMethodRangeAux t name fuel me

/-- `_findMethodRange` of `src/extension.ts`: returns the span
(match start offset, end offset) of the method body, or `none` (JS `null`). -/
def findMethodRange (t name : List Char) : Option (Nat × Nat) :=
  findMethodRangeAux t name (t.length + 1) 0

/-- Matcher for the class regex of `_findClassRange` at start offset `i`:
`\b(public\s+|private\s+|protected\s+|internal\s+)?(static\s+)?(sealed\s+)?(abstract\s+)?class\s+NAME\b`.
Only success matters (`_findClassRange` uses `match.index` alone). -/
def matchClassAt (t name : List Char) (i : Nat) : Bool :=
  let afterGroups : Nat → Bool := fun p =>
    if litFrom t p (String.toList "class") then
      let s := countFrom t (p + 5) spaceJS
      if 0 < s then
        let r := p + 5 + s
        if litFrom t r name then
          match getC t (r + name.length) with
          | none => true
          | some c => !wordChar c
        else false
      else false
    else false
  let tryW : List Char → (Nat → Bool) → Nat → Bool := fun w k p =>
    if litFrom t p w then
      let s := countFrom t (p + w.length) spaceJS
      if 0 < s then k (p + w.length + s) else false
    else false
  let k2 : Nat → Bool := fun p => tryW (String.toList "abstract") afterGroups p || afterGroups p
  let k1 : Nat → Bool := fun p => tryW (String.toList "sealed") k2 p || k2 p
  let k0 : Nat → Bool := fun p => tryW (String.toList "static") k1 p || k1 p
  let kmod : Nat → Bool := fun p =>
    tryW (String.toList "public") k0 p || tryW (String.toList "private") k0 p ||
      tryW (String.toList "protected") k0 p || tryW (String.toList "internal") k0 p || k0 p
  let boundary : Bool :=
    match i, getC t (i - 1) with
    | 0, _ => true
    | _ + 1, some c => !wordChar c
    | _ + 1, none => true
  boundary && kmod i

/-- `text.match(classRegex)` (no `g` flag): index of the leftmost match. -/
def findClassMatchFrom (t name : List Char) : Nat → Nat → Option Nat
  | 0, _ => none
  | fuel + 1, i =>
    if matchClassAt t name i then some i
    else if t.length ≤ i then none
    else findClassMatchFrom t name fuel (i + 1)

/-- Index of the leftmost class-regex match in `t`, or `none`. -/
def findClassMatch (t name : List Char) : Option Nat :=
  findClassMatchFrom t name (t.length + 1) 0

/-- `_findClassRange` of `src/extension.ts`: returns the span
(match start offset, end offset), or `none` (JS `null`).  The brace scan
starts at the match start offset itself (`classStartIndex`). -/
def findClassRange (t name : List Char) : Option (Nat × Nat) :=
  match findClassMatch t name with
  | none => none
  | some mi =>
    let st := braceScan t mi
    if st.foundStartBrace then some (mi, st.endIndex) else none

/-!
Part 2: the Express server (`server/server.js`).
JS numbers are modelled as exact integers; `Math.round` on the (always
non-negative) percentage `beatCount / n * 100` is `⌊x + 1/2⌋`, computed
below as the natural-number division `(200 * beatCount + n) / (2 * n)`.
-/

/-- `calculateBeatPercentage` of `server/server.js`.  `none` models the JS
`null` return. -/
def calculateBeatPercentage (value : Int) (allValues : List Int) (isBetterLower : Bool) :
    Option Nat :=
  if allValues.length = 0 ∨ value < 0 then none
  else
    let validValues := allValues.filter (fun v => decide (0 ≤ v))
    if validValues.length = 0 then none
    else
      let beatCount :=
        if isBetterLower then (validValues.filter (fun v => decide (value < v))).length
        else (validValues.filter (fun v => decide (v < value))).length
      some ((200 * beatCount + validValues.length) / (2 * validValues.length))

/-- Round half away from zero, following the spec's wording for the `.5`
boundary of `round(100 * count / filteredSize)`. -/
def specRoundHalfAway (q : ℚ) : ℤ :=
  if q < 0 then -⌊-q + 1 / 2⌋ else ⌊q + 1 / 2⌋

/-- JS `x || d` for an optional number (`0` is falsy). -/
def jsOrInt (x : Option Int) (d : Int) : Int :=
  match x with
  | none => d
  | some v => if v = 0 then d else v

/-- JS `x || d` for an optional string (`""` is falsy). -/
def jsOrStr (x : Option String) (d : String) : String :=
  match x with
  | none => d
  | some s => if s = "" then d else s

/-- The JSON body of `POST /api/submit` (`none` = field absent/`undefined`). -/
structure SubmitBody where
  code : String
  problemId : String
  output : Option String
  runtime : Option Int
  memory : Option Int
  timestamp : Option Int
  status : Option String
  failedCase : Option Nat
  errorMessage : Option String
deriving Repr, DecidableEq

/-- A stored submission record, as it sits in the in-memory `submissions`
array after its creating request completed (the handler assigns
`beatRuntimePct`/`beatMemoryPct` on the pushed object). -/
structure Submission where
  code : String
  problemId : String
  output : String
  runtime : Int
  memory : Int
  timestamp : Int
  status : String
  failedCase : Option Nat
  errorMessage : Option String
  submissionStatus : String
  beatRuntimePct : Option Nat
  beatMemoryPct : Option Nat
deriving Repr, DecidableEq

/-- The JSON response of `POST /api/submit`. -/
structure SubmitResponse where
  message : String
  beatRuntimePct : Option Nat
  beatMemoryPct : Option Nat
deriving Repr, DecidableEq

/-- The `POST /api/submit` handler.  `now` models `Date.now()`.  The new
record is pushed before the beat percentages are computed, so `allRuntimes`
and `allMemories` include the current submission. -/
def handleSubmit (now : Int) (b : SubmitBody) (subs : List Submission) :
    List Submission × SubmitResponse :=
  let currentRuntime := b.runtime.getD (-1)
  let currentMemory := b.memory.getD (-1)
  let newSub0 : Submission :=
    { code := b.code, problemId := b.problemId, output := b.output.getD ""
      runtime := currentRuntime, memory := currentMemory
      timestamp := jsOrInt b.timestamp now, status := jsOrStr b.status "pending"
      failedCase := b.failedCase, errorMessage := b.errorMessage
      submissionStatus := "pending", beatRuntimePct := none, beatMemoryPct := none }
  let pushed := subs ++ [newSub0]
  let allRuntimes := pushed.map (fun s => s.runtime)
  let allMemories := pushed.map (fun s => s.memory)
  let brp := calculateBeatPercentage currentRuntime allRuntimes true
  let bmp := calculateBeatPercentage currentMemory allMemories true
  let newSub := { newSub0 with beatRuntimePct := brp, beatMemoryPct := bmp }
  (subs ++ [newSub],
   { message := "提交成功，云端已接收", beatRuntimePct := brp, beatMemoryPct := bmp })

/-- The JSON response of `POST /api/mark_read`. -/
structure MarkReadResponse where
  status : String
deriving Repr, DecidableEq

/-- `latestSubmission.status = 'read'` on the last element (no-op on `[]`),
mirroring the in-place mutation of `submissions[submissions.length - 1]`. -/
def setLastRead : List Submission → List Submission
  | [] => []
  | [s] => [{ s with status := "read" }]
  | s :: rest => s :: setLastRead rest

/-- The `POST /api/mark_read` handler: flips the latest submission's status
when one exists and always responds `{status: 'ok'}`. -/
def handleMarkRead (subs : List Submission) : List Submission × MarkReadResponse :=
  (setLastRead subs, { status := "ok" })

/-- A test case of a stored problem. -/
structure TestCase where
  input : String
  expected : String
deriving Repr, DecidableEq

/-- A stored problem of `problemsDatabase`. -/
structure Problem where
  id : String
  title : String
  description : String
  testCases : List TestCase
  difficulty : String
deriving Repr, DecidableEq

/-- The JSON body of `POST /api/problems` (`none` = field absent; a missing
string field is modelled as `""`, which is equally falsy in the JS check). -/
structure ProblemBody where
  id : String
  title : String
  description : String
  testCases : Option (List TestCase)
  difficulty : Option String
deriving Repr, DecidableEq

/-- The response of `POST /api/problems`, reduced to its HTTP status code. -/
structure PostProblemsResponse where
  statusCode : Nat
deriving Repr, DecidableEq

/-- The problem object the upsert stores (`difficulty: difficulty || '中等'`). -/
def mkProblem (b : ProblemBody) : Problem :=
  { id := b.id, title := b.title, description := b.description
    testCases := b.testCases.getD []
    difficulty := jsOrStr b.difficulty "中等" }

/-- JS `Array.prototype.findIndex` (first index satisfying `p`, else none),
threading the running index. -/
def findIndexAux (p : α → Bool) : List α → Nat → Option Nat
  | [], _ => none
  | a :: l, i => if p a then some i else findIndexAux p l (i + 1)

/-- The `POST /api/problems` handler.  `saveOk` models whether
`fs.writeFileSync` in `saveProblemsToFile` succeeds; on failure the route
responds 500, after the in-memory upsert has already happened. -/
def handlePostProblems (b : ProblemBody) (saveOk : Bool) (db : List Problem) :
    List Problem × PostProblemsResponse :=
  if b.id = "" ∨ b.title = "" ∨ b.description = "" ∨ b.testCases = none ∨
      (b.testCases.getD []).length = 0 then
    (db, { statusCode := 400 })
  else
    let newP := mkProblem b
    let db' :=
      match findIndexAux (fun p => p.id == b.id) db 0 with
      | some i => db.set i newP
      | none => db ++ [newP]
    if saveOk then (db', { statusCode := 200 }) else (db', { statusCode := 500 })

/-- A request to one of the seven routes of `server/server.js`. -/
inductive Request where
  | submit (body : SubmitBody)
  | check
  | markRead
  | stats (problemId : Option String)
  | getProblem (id : String)
  | getProblems
  | postProblems (body : ProblemBody) (saveOk : Bool)
deriving Repr, DecidableEq

/-- The mutable in-memory state of the server process. -/
structure ServerState where
  submissions : List Submission
  problems : List Problem
deriving Repr, DecidableEq

/-- State transition of one request.  `GET /api/check`, `GET /api/stats`
(whose `sort` acts on a fresh `filter` copy), `GET /api/problem/:id` and
`GET /api/problems` leave the state unchanged. -/
def handleRequest (now : Int) (req : Request) (st : ServerState) : ServerState :=
  match req with
  | .submit b => { st with submissions := (handleSubmit now b st.submissions).1 }
  | .check => st
  | .markRead => { st with submissions := (handleMarkRead st.submissions).1 }
  | .stats _ => st
  | .getProblem _ => st
  | .getProblems => st
  | .postProblems b saveOk => { st with problems := (handlePostProblems b saveOk st.problems).1 }

/-!
Concrete inputs used by the theorems below (braces written `\x7b`/`\x7d`).
-/

/-- The method name `M`. -/
def mName : List Char := String.toList "M"

/-- The spec's quoted-brace example: `public void M(){ var s="{"; }`. -/
def tQuoted : List Char := String.toList "public void M()\x7b var s=\"\x7b\"; \x7d"

/-- The spec's basic example: `public int Add(int a,int b){ return a+b; }`. -/
def tAdd : List Char := String.toList "public int Add(int a,int b)\x7b return a+b; \x7d"

/-- An interface-style method: `public void M();`. -/
def tIface : List Char := String.toList "public void M();"

/-- An interface declaration followed by a brace-having declaration of the
same name: `public void M();public void M()/**/{ }`. -/
def tTwoDecl : List Char := String.toList "public void M();public void M()/**/\x7b \x7d"

/-- A class declaration whose brace is never closed: `class C {`. -/
def tClassOpen : List Char := String.toList "class C \x7b"

/-- Modelled from the spec: the ranker's result formula
`round(100 * count / filteredSize)` with the `.5` boundary rounded half away
from zero, over the filtered history and the strictly-worse count. -/
def specBeatFormula (v : Int) (H : List Int) (lower : Bool) : Option Nat :=
  let valid := H.filter (fun x => decide (0 ≤ x))
  let worse :=
    if lower then valid.filter (fun x => decide (v < x))
    else valid.filter (fun x => decide (x < v))
  some (specRoundHalfAway ((100 * worse.length : ℚ) / (valid.length : ℚ))).toNat

/-- A sample stored submission, used to instantiate general theorems. -/
def sampleSub : Submission :=
  { code := "c", problemId := "101", output := "3", runtime := 5, memory := 7
    timestamp := 1, status := "Accepted", failedCase := none, errorMessage := none
    submissionStatus := "pending", beatRuntimePct := some 0, beatMemoryPct := some 0 }

/-- A sample submit body with valid performance numbers. -/
def sampleBody : SubmitBody :=
  { code := "c", problemId := "101", output := some "3", runtime := some 5
    memory := some 7, timestamp := some 1, status := some "Accepted"
    failedCase := none, errorMessage := none }

/-- A sample valid problem upsert body. -/
def sampleProblemBody : ProblemBody :=
  { id := "201", title := "t", description := "d"
    testCases := some [{ input := "1 2", expected := "3" }], difficulty := none }

/-!
Helper lemmas.
-/

/-- `braceStep` never clears `foundStartBrace`. -/
theorem braceStep_found (c : Char) (prev : Option Char) (i : Nat) (st : BraceScanState)
    (h : st.foundStartBrace = true) : (braceStep c prev i st).foundStartBrace = true := by
  simp only [braceStep]
  repeat' split
  all_goals simp_all

/-- `braceScanAux` never clears `foundStartBrace`. -/
theorem braceScanAux_found (l : List Char) :
    ∀ (prev : Option Char) (i : Nat) (st : BraceScanState),
      st.foundStartBrace = true → (braceScanAux l prev i st).foundStartBrace = true := by
  induction l with
  | nil => intro prev i st h; simpa [braceScanAux] using h
  | cons c rest ih =>
    intro prev i st h
    by_cases hd : st.done = true
    · simpa [braceScanAux, hd] using h
    · simp only [braceScanAux, hd]
      simp only [Bool.not_eq_true] at hd
      simp [hd]
      exact ih _ _ _ (braceStep_found c prev i st h)

/-- If the scan starts on a `\x7b`, it records a start brace. -/
theorem braceScan_head_brace (t : List Char) (p : Nat) (h : getC t p = some '{') :
    (braceScan t p).foundStartBrace = true := by
  unfold braceScan
  have hd : (t.drop p).head? = some '{' := by
    rw [List.head?_drop]
    rw [← List.get?_eq_getElem?]
    exact h
  obtain ⟨rest, hrest⟩ : ∃ rest, t.drop p = '{' :: rest := by
    cases hdrop : t.drop p with
    | nil => rw [hdrop] at hd; simp at hd
    | cons a r =>
      rw [hdrop] at hd
      simp at hd
      exact ⟨r, by rw [hd]⟩
  rw [hrest]
  simp only [braceScanAux]
  rw [if_neg (by simp)]
  exact braceScanAux_found _ _ _ _ rfl

/-- `findIndexAux` returns an index below `k + length`. -/
theorem findIndexAux_bounds (p : α → Bool) :
    ∀ (l : List α) (k i : Nat), findIndexAux p l k = some i → k ≤ i ∧ i < k + l.length := by
  intro l
  induction l with
  | nil => intro k i h; simp [findIndexAux] at h
  | cons a rest ih =>
    intro k i h
    unfold findIndexAux at h
    split at h
    · cases h; constructor <;> simp
    · have := ih (k + 1) i h
      constructor <;> [omega; (simp only [List.length_cons]; omega)]

/-- Setting index `i < length` keeps the new element in the list. -/
theorem mem_set_self (l : List α) (i : Nat) (a : α) (h : i < l.length) : a ∈ l.set i a := by
  induction l generalizing i with
  | nil => simp at h
  | cons b rest ih =>
    cases i with
    | zero => simp
    | succ j =>
      simp only [List.set_cons_succ, List.mem_cons]
      right
      exact ih j (by simpa using Nat.lt_of_succ_lt_succ h)

/-- `setLastRead` keeps the length. -/
theorem setLastRead_length : ∀ subs : List Submission, (setLastRead subs).length = subs.length := by
  intro subs
  induction subs with
  | nil => rfl
  | cons s rest ih =>
    cases rest with
    | nil => rfl
    | cons r t => simpa [setLastRead] using ih

/-- Element-wise description of `setLastRead`. -/
theorem setLastRead_getElem? (subs : List Submission) (i : Nat) :
    (setLastRead subs)[i]? =
      if i + 1 = subs.length then (subs[i]?).map (fun s => { s with status := "read" })
      else subs[i]? := by
  induction subs generalizing i with
  | nil => simp [setLastRead]
  | cons s rest ih =>
    cases rest with
    | nil =>
      cases i with
      | zero => simp [setLastRead]
      | succ j => simp [setLastRead]
    | cons r t =>
      cases i with
      | zero =>
        rw [if_neg (by simp)]
        simp [setLastRead]
      | succ j =>
        simp only [setLastRead, List.getElem?_cons_succ, ih j]
        have hcond : (j + 1 = (r :: t).length) ↔ (j + 1 + 1 = (s :: r :: t).length) := by
          simp only [List.length_cons]
          omega
        by_cases hc : j + 1 = (r :: t).length
        · rw [if_pos hc, if_pos (hcond.mp hc)]
        · rw [if_neg hc, if_neg (fun h => hc (hcond.mpr h))]

/-- The natural-division rounding of the code equals the spec's
round-half-away-from-zero of the exact rational percentage. -/
theorem natDiv_round (c n : ℕ) (hn : 0 < n) :
    ((200 * c + n) / (2 * n) : ℕ) = (specRoundHalfAway ((100 * c : ℚ) / (n : ℚ))).toNat := by
  have hnq : (0 : ℚ) < (n : ℚ) := by exact_mod_cast hn
  have hq : (0 : ℚ) ≤ (100 * c : ℚ) / n := by positivity
  rw [specRoundHalfAway, if_neg (not_lt.mpr hq)]
  set k := (200 * c + n) / (2 * n) with hkdef
  have hlo : k * (2 * n) ≤ 200 * c + n := Nat.div_mul_le_self (200 * c + n) (2 * n)
  have hdm : 2 * n * k + (200 * c + n) % (2 * n) = 200 * c + n := Nat.div_add_mod _ _
  have hml : (200 * c + n) % (2 * n) < 2 * n := Nat.mod_lt _ (by omega)
  have hhi : 200 * c + n < (k + 1) * (2 * n) := by
    calc 200 * c + n = 2 * n * k + (200 * c + n) % (2 * n) := hdm.symm
      _ < 2 * n * k + 2 * n := Nat.add_lt_add_left hml _
      _ = (k + 1) * (2 * n) := by ring
  have heq : (100 * c : ℚ) / n + 1 / 2 = ((200 * c + n : ℕ) : ℚ) / ((2 * n : ℕ) : ℚ) := by
    push_cast
    field_simp
    ring
  have h2nq : (0 : ℚ) < ((2 * n : ℕ) : ℚ) := by
    push_cast
    linarith
  have hfloor : ⌊(100 * c : ℚ) / n + 1 / 2⌋ = (k : ℤ) := by
    rw [Int.floor_eq_iff, heq]
    constructor
    · rw [le_div_iff₀ h2nq]
      exact_mod_cast hlo
    · rw [div_lt_iff₀ h2nq]
      push_cast
      have : ((200 * c + n : ℕ) : ℚ) < (((k + 1) * (2 * n) : ℕ) : ℚ) := by exact_mod_cast hhi
      push_cast at this
      linarith
  rw [hfloor]
  exact (Int.toNat_natCast k).symm

/-!
The claims.
-/

/-- C2: on `public void M(){ var s="{"; }` the method locator is claimed to
return a span ending at the real closing brace (offset 29).  The code
instead returns the span (0, 25), ending just after the quoted brace at
offset 24: the signature-end scan (which ignores string literals) lands on
the quoted brace because the regex's trailing `\x7b?` already consumed the
real opening brace.  This evaluates the embedded locator at that input. -/
theorem methodRange_quoted_brace_bug :
    findMethodRange tQuoted mName = some (0, 25) ∧
    getC tQuoted 28 = some '}' ∧ tQuoted.length = 29 := by decide

/-- C3: on `public int Add(int a,int b){ return a+b; }` the locator is
claimed to return the span of `{ return a+b; }` (offsets 27 to 42).  The
code returns `null`: the regex consumes the opening brace, the
signature-end scan then hits the `;` of `return a+b;` first and the match
is skipped as an "abstract method", and no further match exists. -/
theorem methodRange_add_example_bug :
    findMethodRange tAdd (String.toList "Add") = none ∧
    tAdd.length = 42 ∧ getC tAdd 27 = some '{' := by decide

/-- C10: `POST /api/mark_read` on an empty submissions list leaves the list
unchanged and responds `{status: 'ok'}`; the response is `ok` for every
state. -/
theorem markRead_empty_ok :
    handleMarkRead [] = ([], { status := "ok" }) ∧
    ∀ subs : List Submission, (handleMarkRead subs).2.status = "ok" :=
  ⟨rfl, fun _ => rfl⟩

/-- C1 counterexample: on `class C \x7b` the class locator finds the opening
brace, the depth never returns to 0 (`done = false`, final depth 1), yet the
locator returns the span (0, 9) instead of the claimed `null`. -/
theorem classRange_unbalanced_cex :
    (braceScan tClassOpen 0).foundStartBrace = true ∧
    (braceScan tClassOpen 0).done = false ∧
    (braceScan tClassOpen 0).braceCount = 1 ∧
    findClassRange tClassOpen (String.toList "C") = some (0, 9) ∧
    findClassRange tClassOpen (String.toList "C") ≠ none := by decide

/-- C1 (amended): when the locator finds the opening brace of the matched
declaration but the depth never returns to 0 before the end of the buffer
(the scan ends with `foundStartBrace` set and without reaching the `break`),
both locators return a span (ending at the scan's `endIndex`, i.e. just
after the opening brace) rather than `null`; `null` is reported only when
no opening brace is found. -/
theorem locator_unbalanced_returns_span :
    (∀ (t name : List Char) (mi : Nat), findClassMatch t name = some mi →
        (braceScan t mi).foundStartBrace = true →
        (braceScan t mi).done = false →
        findClassRange t name = some (mi, (braceScan t mi).endIndex)) ∧
    (∀ (t name : List Char) (fuel s mi me : Nat),
        findMatchFrom t name (t.length + 2) s = some (mi, me) →
        getC t (sigEndOf t me) ≠ some ';' →
        (braceScan t (sigEndOf t me)).foundStartBrace = true →
        (braceScan t (sigEndOf t me)).done = false →
        findMethodRangeAux t name (fuel + 1) s =
          some (mi, (braceScan t (sigEndOf t me)).endIndex)) := by
  constructor
  · intro t name mi hm hf _
    unfold findClassRange
    rw [hm]
    simp [hf]
  · intro t name fuel s mi me hm hs hf _
    simp only [findMethodRangeAux, hm]
    rw [if_neg hs, if_pos hf]

/-- Witness for C1's amended theorem at the concrete input `class C \x7b`. -/
theorem locator_unbalanced_returns_span_wit :
    findClassRange tClassOpen (String.toList "C") =
      some (0, (braceScan tClassOpen 0).endIndex) :=
  locator_unbalanced_returns_span.1 tClassOpen (String.toList "C") 0
    (by decide) (by decide) (by decide)

/-- C4: `calculateBeatPercentage(v, H, true)` is `null` exactly when `v < 0`
or every element of `H` is negative (vacuously including `H = []`). -/
theorem beatPercentage_null_iff (v : Int) (H : List Int) :
    calculateBeatPercentage v H true = none ↔ v < 0 ∨ ∀ x ∈ H, x < 0 := by
  have key : calculateBeatPercentage v H true = none ↔
      (H.length = 0 ∨ v < 0) ∨ (H.filter (fun x => decide (0 ≤ x))).length = 0 := by
    unfold calculateBeatPercentage
    split
    · simp_all
    · split <;> simp_all
  rw [key]
  constructor
  · rintro (h | h)
    · rcases h with h | h
      · right
        intro x hx
        rw [List.length_eq_zero.mp h] at hx
        simp at hx
      · left; exact h
    · right
      intro x hx
      have := List.filter_eq_nil_iff.mp (List.length_eq_zero.mp h) x hx
      simp only [decide_eq_true_eq] at this
      omega
  · rintro (h | h)
    · left; right; exact h
    · right
      rw [List.length_eq_zero, List.filter_eq_nil_iff]
      intro a ha
      simp only [decide_eq_true_eq]
      have := h a ha
      omega

/-- C5: with a valid value and a non-empty filtered history, the ranker
filters to non-negative entries, counts the strictly worse ones (`> v` when
lower is better, `< v` otherwise) and rounds the exact percentage half away
from zero — the spec's formula `round(100 * count / filteredSize)`; the
spec's two examples evaluate to 100 and 33. -/
theorem beatPercentage_formula :
    (∀ (v : Int) (H : List Int) (lower : Bool), 0 ≤ v →
        H.filter (fun x => decide (0 ≤ x)) ≠ [] →
        calculateBeatPercentage v H lower = specBeatFormula v H lower) ∧
    calculateBeatPercentage 5 [10, 10, 10] true = some 100 ∧
    calculateBeatPercentage 10 [5, 10, 15] true = some 33 := by
  refine ⟨?_, by decide, by decide⟩
  intro v H lower h0 hne
  have hH : H ≠ [] := by
    intro h
    rw [h] at hne
    simp at hne
  have hlen : ¬(H.length = 0 ∨ v < 0) := by
    push_neg
    exact ⟨fun h => hH (List.length_eq_zero.mp h), h0⟩
  have hvlen : ¬(H.filter (fun x => decide (0 ≤ x))).length = 0 := by
    intro h
    exact hne (List.length_eq_zero.mp h)
  unfold calculateBeatPercentage specBeatFormula
  dsimp only
  rw [if_neg hlen, if_neg hvlen]
  have hpos : 0 < (H.filter (fun x => decide (0 ≤ x))).length := Nat.pos_of_ne_zero hvlen
  cases lower
  · simp only [Bool.false_eq_true, if_false]
    rw [natDiv_round _ _ hpos]
  · simp only [if_true]
    rw [natDiv_round _ _ hpos]

/-- Witness for C5's formula at the spec's first example. -/
theorem beatPercentage_formula_wit :
    calculateBeatPercentage 5 [10, 10, 10] true = specBeatFormula 5 [10, 10, 10] true :=
  beatPercentage_formula.1 5 [10, 10, 10] true (by decide) (by decide)

/-- C6: because `POST /api/submit` pushes the new record into `submissions`
before computing the percentages, the very first submission with
non-negative runtime and memory compares only against itself and gets
`beatRuntimePct = 0` and `beatMemoryPct = 0` (not `null`). -/
theorem first_submission_beats_zero (now : Int) (b : SubmitBody) (r m : Int)
    (hr : b.runtime = some r) (hm : b.memory = some m) (h0r : 0 ≤ r) (h0m : 0 ≤ m) :
    (handleSubmit now b []).2.beatRuntimePct = some 0 ∧
    (handleSubmit now b []).2.beatMemoryPct = some 0 ∧
    (handleSubmit now b []).1.length = 1 := by
  have hdr : decide (0 ≤ r) = true := decide_eq_true h0r
  have hdm : decide (0 ≤ m) = true := decide_eq_true h0m
  have hnr : decide (r < r) = false := decide_eq_false (lt_irrefl r)
  have hnm : decide (m < m) = false := decide_eq_false (lt_irrefl m)
  simp [handleSubmit, calculateBeatPercentage, hr, hm, not_lt.mpr h0r, not_lt.mpr h0m,
    hdr, hdm, hnr, hnm, List.filter]

/-- Witness for C6 at a concrete submit body (runtime 5, memory 7). -/
theorem first_submission_beats_zero_wit :
    (handleSubmit 0 sampleBody []).2.beatRuntimePct = some 0 ∧
    (handleSubmit 0 sampleBody []).2.beatMemoryPct = some 0 ∧
    (handleSubmit 0 sampleBody []).1.length = 1 :=
  first_submission_beats_zero 0 sampleBody 5 7 rfl rfl (by decide) (by decide)

/-- C7: a matched signature whose first following delimiter is `;` (an
interface/abstract method) is treated as NotFound for that occurrence and
the loop continues with the next regex match from the previous match's end;
a match whose delimiter is `\x7b` makes the locator return that (first
brace-having) match's span; when no match remains the locator returns
`null`.  Concretely, `public void M();` yields `null`, and the brace-having
second declaration of `tTwoDecl` is returned. -/
theorem methodRange_semicolon_skip :
    findMethodRange tIface mName = none ∧
    findMethodRange tTwoDecl mName = some (16, 38) ∧
    (∀ (t name : List Char) (fuel s mi me : Nat),
        findMatchFrom t name (t.length + 2) s = some (mi, me) →
        getC t (sigEndOf t me) = some ';' →
        findMethodRangeAux t name (fuel + 1) s = findMethodRangeAux t name fuel me) ∧
    (∀ (t name : List Char) (fuel s mi me : Nat),
        findMatchFrom t name (t.length + 2) s = some (mi, me) →
        getC t (sigEndOf t me) = some '{' →
        findMethodRangeAux t name (fuel + 1) s =
          some (mi, (braceScan t (sigEndOf t me)).endIndex)) ∧
    (∀ (t name : List Char) (fuel s : Nat),
        findMatchFrom t name (t.length + 2) s = none →
        findMethodRangeAux t name (fuel + 1) s = none) := by
  refine ⟨by decide, by decide, ?_, ?_, ?_⟩
  · intro t name fuel s mi me hm hs
    simp only [findMethodRangeAux, hm]
    rw [if_pos hs]
  · intro t name fuel s mi me hm hs
    have hne : getC t (sigEndOf t me) ≠ some ';' := by
      rw [hs]
      simp
    simp only [findMethodRangeAux, hm]
    rw [if_neg hne, if_pos (braceScan_head_brace t (sigEndOf t me) hs)]
  · intro t name fuel s hm
    simp only [findMethodRangeAux, hm]

/-- Witness for C7's skip rule on `public void M();`: the first match ends at
offset 15 and its delimiter is `;`, so the loop continues from there. -/
theorem methodRange_semicolon_skip_wit :
    findMethodRangeAux tIface mName 1 0 = findMethodRangeAux tIface mName 0 15 :=
  methodRange_semicolon_skip.2.2.1 tIface mName 0 0 0 15 (by decide) (by decide)

/-- C8: every request preserves the stored submissions: lengths never
shrink, and the element at each existing index is unchanged except that
`POST /api/mark_read` replaces the last element's `status` with `"read"`. -/
theorem submissions_append_only (now : Int) (req : Request) (st : ServerState) :
    st.submissions.length ≤ (handleRequest now req st).submissions.length ∧
    ∀ i, i < st.submissions.length →
      (handleRequest now req st).submissions[i]? =
        (if req = Request.markRead ∧ i + 1 = st.submissions.length then
          (st.submissions[i]?).map (fun s => { s with status := "read" })
        else st.submissions[i]?) := by
  cases req with
  | submit b =>
    constructor
    · simp [handleRequest, handleSubmit]
    · intro i hi
      rw [if_neg (by simp)]
      simp only [handleRequest, handleSubmit]
      exact List.getElem?_append_left hi
  | check =>
    exact ⟨le_refl _, fun i _ => by rw [if_neg (by simp)]; rfl⟩
  | markRead =>
    constructor
    · simp [handleRequest, handleMarkRead, setLastRead_length]
    · intro i hi
      simp only [handleRequest, handleMarkRead, setLastRead_getElem?]
      by_cases hc : i + 1 = st.submissions.length
      · rw [if_pos hc, if_pos (by simp [hc])]
      · rw [if_neg hc, if_neg (by simp [hc])]
  | stats q =>
    exact ⟨le_refl _, fun i _ => by rw [if_neg (by simp)]; rfl⟩
  | getProblem pid =>
    exact ⟨le_refl _, fun i _ => by rw [if_neg (by simp)]; rfl⟩
  | getProblems =>
    exact ⟨le_refl _, fun i _ => by rw [if_neg (by simp)]; rfl⟩
  | postProblems b saveOk =>
    exact ⟨le_refl _, fun i _ => by rw [if_neg (by simp)]; rfl⟩

/-- Witness for C8: marking read on a one-element list rewrites exactly the
status of that (latest) submission. -/
theorem submissions_append_only_wit :
    (handleRequest 0 Request.markRead ⟨[sampleSub], []⟩).submissions[0]? =
      some { sampleSub with status := "read" } := by
  have h := (submissions_append_only 0 Request.markRead ⟨[sampleSub], []⟩).2 0 (by decide)
  rw [h, if_pos ⟨rfl, by decide⟩]
  decide

/-- C9: when saving the catalog fails, `POST /api/problems` responds 500 but
the in-memory database already contains the upserted problem — the mutation
precedes the save attempt and is not rolled back. -/
theorem postProblems_mutation_before_save (b : ProblemBody) (db : List Problem)
    (ts : List TestCase) (h1 : b.id ≠ "") (h2 : b.title ≠ "") (h3 : b.description ≠ "")
    (h4 : b.testCases = some ts) (h5 : ts ≠ []) :
    (handlePostProblems b false db).2.statusCode = 500 ∧
    mkProblem b ∈ (handlePostProblems b false db).1 := by
  have hval : ¬(b.id = "" ∨ b.title = "" ∨ b.description = "" ∨ b.testCases = none ∨
      (b.testCases.getD []).length = 0) := by
    push_neg
    refine ⟨h1, h2, h3, by simp [h4], ?_⟩
    rw [h4]
    simpa [List.length_eq_zero] using h5
  unfold handlePostProblems
  rw [if_neg hval]
  cases hidx : findIndexAux (fun p => p.id == b.id) db 0 with
  | none =>
    simp only [hidx]
    exact ⟨rfl, List.mem_append_right _ (by simp)⟩
  | some i =>
    simp only [hidx]
    have hi : i < db.length := by
      have := (findIndexAux_bounds _ db 0 i hidx).2
      omega
    exact ⟨rfl, mem_set_self db i (mkProblem b) hi⟩

/-- Witness for C9 at a concrete valid body over the empty database. -/
theorem postProblems_mutation_before_save_wit :
    (handlePostProblems sampleProblemBody false []).2.statusCode = 500 ∧
    mkProblem sampleProblemBody ∈ (handlePostProblems sampleProblemBody false []).1 :=
  postProblems_mutation_before_save sampleProblemBody [] [{ input := "1 2", expected := "3" }]
    (by decide) (by decide) (by decide) rfl (by decide)

